import Mathlib

/-!
Verification of the alfa-compiler language-server supervision layer.

The definitions below are a shallow embedding of the TypeScript sources:
`language-server-client.ts` (the `AlfaLanguageServerClient` class),
`compiler.ts` (the `AlfaCompiler` class and the exported `compileFiles`
facade), `request-compile.ts` (`handleCompileRequest`) and
`xml-utils.ts` (`formatXml`).  Filesystem and process behaviour that the
code merely observes (stat results, unlink failures, the diagnostics the
external language server pushes during the settle delay, the files it
writes into the output directory) is modelled by an explicit `World`
parameter; the orchestrator state (initialized flag, diagnostics map,
output-directory contents) is threaded explicitly, and every externally
visible action is recorded in an event trace.
-/

namespace Alfa

/-- One LSP diagnostic as stored by the client: optional severity
(`1` = error), zero-based start line and character, and a message. -/
structure Diag where
  severity : Option Nat
  line : Nat
  character : Nat
  message : String
deriving DecidableEq, Repr

/-- One compiled output record (`CompiledFile` in the source). -/
structure CompiledFile where
  fileName : String
  content : String
deriving DecidableEq, Repr

/-- Errors the embedded code can produce.  Each constructor corresponds to
one `throw new Error(...)` site in the source (its exact message is given
by `Err.message`), except `fsStatEnoent`, which stands for the raw
rejection of `fs.stat` on a nonexistent path. -/
inductive Err where
  | fsStatEnoent (p : String)
  | noFilesProvided
  | inputNotAFile (p : String)
  | inputFileNotFound (p : String)
  | notReady
  | cleanup (cause : String)
  | compilation (body : String)
  | readOutputDir (cause : String)
  | provideAtLeastOneFilename
  | provideAFilename
  | filenameEmpty
deriving DecidableEq, Repr

/-- The message string each error is thrown with in the source. -/
def Err.message : Err → String
  | .fsStatEnoent p => "ENOENT: no such file or directory, stat " ++ p
  | .noFilesProvided => "No files provided for compilation"
  | .inputNotAFile p => "Input path is not a file: " ++ p
  | .inputFileNotFound p => "Input file not found: " ++ p
  | .notReady => "Language server is not initialized. Please call initialize() before compiling."
  | .cleanup cause => "Failed to clean old output files: " ++ cause
  | .compilation body => "Compilation failed with errors:\n" ++ body
  | .readOutputDir cause => "Failed to read output directory: " ++ cause
  | .provideAtLeastOneFilename => "Please provide at least one filename"
  | .provideAFilename => "Please provide a filename"
  | .filenameEmpty => "Filename is empty"

/-- Mutable state of an `AlfaLanguageServerClient` instance: the
`isInitialized` flag, the diagnostics map (as an insertion-ordered
association list, mirroring a JS `Map`), and the entries of the
compilation output directory as (file name, raw content) pairs. -/
structure St where
  isInitialized : Bool
  diagnostics : List (String × List Diag)
  outFiles : List (String × String)
deriving DecidableEq, Repr

/-- Environment behaviour observed during one call: per-file `unlink` and
`readFile` outcomes, whether listing the output directory fails, what kind
of entry `fs.stat` sees at a path (`none` = nonexistent, `some true` =
regular file, `some false` = exists but not a regular file), the
diagnostics pushed by the server during the settle delay, and the files the
server writes into the output directory during the settle delay. -/
structure World where
  unlinkErr : String → Option String
  readFileErr : String → Option String
  readdirErr : Option String
  fsKind : String → Option Bool
  pushed : List (String × List Diag)
  written : List (String × String)

/-- Externally visible actions, recorded in order of occurrence. -/
inductive Ev where
  | statQ (p : String)
  | existsQ (p : String)
  | readdir
  | unlink (name : String)
  | readFile (name : String)
  | notify (uris : List String) (dirSnapshot : List String)
deriving DecidableEq, Repr

/-- URI the client sends for a path (`URI.file(path).toString()`). -/
def fileUri (p : String) : String := "file://" ++ p

/-- The unlink loop of `clearCompilationOutputDir`: deletes entries in
directory order, stopping at the first failing `unlink` (the thrown
rejection escapes the `for` loop).  Returns the outcome (the raw cause on
failure), the entries still present, and the unlink events attempted. -/
def clearLoop (unlinkErr : String → Option String) :
    List (String × String) → Except String Unit × List (String × String) × List Ev
  | [] => (.ok (), [], [])
  | e :: rest =>
    match unlinkErr e.1 with
    | some cause => (.error cause, e :: rest, [.unlink e.1])
    | none =>
      let r := clearLoop unlinkErr rest
      (r.1, r.2.1, .unlink e.1 :: r.2.2)

/-- `clearCompilationOutputDir`: lists the directory and unlinks every
entry; any failure (of `readdir` or of an `unlink`) is rethrown as the
cleanup error wrapping the first underlying cause. -/
def clearCompilationOutputDir (w : World) (files : List (String × String)) :
    Except Err Unit × List (String × String) × List Ev :=
  match w.readdirErr with
  | some cause => (.error (.cleanup cause), files, [])
  | none =>
    match clearLoop w.unlinkErr files with
    | (.ok _, rest, evs) => (.ok (), rest, .readdir :: evs)
    | (.error cause, rest, evs) => (.error (.cleanup cause), rest, .readdir :: evs)

/-- Newline insertion step of `formatXml`: the global regex replacement
turning every `><` boundary into `>` newline `<` (the trailing-slash
capture group is reproduced verbatim by the replacement). -/
def insertNewlines : List Char → List Char
  | '>' :: '<' :: rest => '>' :: '\n' :: '<' :: insertNewlines rest
  | c :: rest => c :: insertNewlines rest
  | [] => []

/-- JS `\w`: ASCII letter, digit or underscore. -/
def isWordChar (c : Char) : Bool := c.isAlphanum || c == '_'

/-- Whether a character list is exactly a closing-tag suffix candidate:
some characters none of which is a greater-than sign, then a final
greater-than sign. -/
def noGtThenEnd : List Char → Bool
  | ['>'] => true
  | '>' :: _ => false
  | _ :: rest => noGtThenEnd rest
  | [] => false

/-- Whether a character list matches a closing tag anchored at its end:
a less-than sign, a slash, a word character, non-greater-than characters,
then the final greater-than sign. -/
def closingSuffix : List Char → Bool
  | '<' :: '/' :: c :: rest => isWordChar c && noGtThenEnd rest
  | _ => false

/-- Whether `closingSuffix` holds at some position at index one or
later. -/
def existsClosingAt : List Char → Bool
  | [] => false
  | _ :: rest => closingSuffix rest || existsClosingAt rest

/-- The first line regex of `formatXml`: at least one character followed by
a closing tag that ends the line. -/
def lineMatchClosingAtEnd (cs : List Char) : Bool := existsClosingAt cs

/-- The second line regex of `formatXml`: the line starts with a
closing-tag opener followed by a word character. -/
def lineMatchStartsClosing : List Char → Bool
  | '<' :: '/' :: c :: _ => isWordChar c
  | _ => false

/-- Scan for the third regex: some non-greater-than characters, one
character that is not a slash, then a greater-than sign. -/
def scanOpenTag : List Char → Bool
  | x :: y :: rest => (x != '/' && y == '>') || (x != '>' && scanOpenTag (y :: rest))
  | _ => false

/-- The third line regex of `formatXml`: the line starts with an opening
tag whose closing greater-than sign is not preceded by a slash. -/
def lineMatchOpenTag : List Char → Bool
  | '<' :: c :: rest => isWordChar c && scanOpenTag rest
  | _ => false

/-- Repeat a string a number of times (JS `String.prototype.repeat`). -/
def strRepeat (s : String) (n : Nat) : String := String.join (List.replicate n s)

/-- JS `String.prototype.split` at newlines, over character lists. -/
def splitLines : List Char → List (List Char)
  | [] => [[]]
  | '\n' :: rest => [] :: splitLines rest
  | c :: rest =>
    match splitLines rest with
    | [] => [[c]]
    | l :: ls => (c :: l) :: ls

/-- The per-line indentation fold of `formatXml`: carries the running
`pad` counter across lines exactly as the source does. -/
def formatXmlLoop (padUnit : String) (pad : Nat) : List String → List String
  | [] => []
  | line :: rest =>
    let cs := line.data
    if lineMatchClosingAtEnd cs then
      (strRepeat padUnit pad ++ line) :: formatXmlLoop padUnit pad rest
    else if lineMatchStartsClosing cs && pad > 0 then
      (strRepeat padUnit (pad - 1) ++ line) :: formatXmlLoop padUnit (pad - 1) rest
    else if lineMatchOpenTag cs then
      (strRepeat padUnit pad ++ line) :: formatXmlLoop padUnit (pad + 1) rest
    else
      (strRepeat padUnit pad ++ line) :: formatXmlLoop padUnit pad rest

/-- `formatXml` from `xml-utils.ts`: break the text at tag boundaries and
re-indent each line. -/
def formatXml (xml : String) (indent : Nat := 2) : String :=
  let padding := strRepeat " " indent
  let lines := (splitLines (insertNewlines xml.data)).map String.mk
  String.intercalate "\n" (formatXmlLoop padding 0 lines)

/-- `getCompilationOutput`: lists the output directory and reads every
entry, skipping entries whose read fails; a listing failure fails the whole
call. -/
def getCompilationOutput (w : World) (files : List (String × String)) :
    Except Err (List CompiledFile) × List Ev :=
  match w.readdirErr with
  | some cause => (.error (.readOutputDir cause), [])
  | none =>
    let outputs := files.filterMap (fun f =>
      match w.readFileErr f.1 with
      | some _ => none
      | none => some { fileName := f.1, content := formatXml f.2 })
    (.ok outputs, .readdir :: files.map (fun f => .readFile f.1))

/-- JS `Map.prototype.set` on an insertion-ordered association list:
replace in place when the key is present, append otherwise. -/
def mapSet (m : List (String × List Diag)) (k : String) (v : List Diag) :
    List (String × List Diag) :=
  if m.any (fun p => p.1 == k) then
    m.map (fun p => if p.1 == k then (k, v) else p)
  else
    m ++ [(k, v)]

/-- Apply a sequence of `textDocument/publishDiagnostics` pushes to the
diagnostics map (each push replaces that document's entry). -/
def applyPushes (m : List (String × List Diag)) (pushes : List (String × List Diag)) :
    List (String × List Diag) :=
  pushes.foldl (fun acc p => mapSet acc p.1 p.2) m

/-- The error-severity diagnostics of a diagnostics map, in map order
(`Array.from(map.values()).flat().filter(severity === 1)`). -/
def errorDiagnostics (m : List (String × List Diag)) : List Diag :=
  ((m.map Prod.snd).foldr (· ++ ·) []).filter (fun d => d.severity == some 1)

/-- The formatted message line for one error diagnostic, with one-based
line and column numbers. -/
def diagLine (d : Diag) : String :=
  "Line " ++ toString (d.line + 1) ++ ", Col " ++ toString (d.character + 1)
    ++ ": " ++ d.message

/-- `AlfaLanguageServerClient.compileFiles`: clear the diagnostics map,
clear the output directory, then check readiness; notify the server of the
changed files in one batch, wait the settle delay (during which the world
pushes diagnostics and writes output files), fail on error diagnostics,
otherwise read the output and clear the directory again. -/
def clientCompileFiles (w : World) (st : St) (inputFiles : List String) :
    Except Err (List CompiledFile) × St × List Ev :=
  let st1 : St := { st with diagnostics := [] }
  match clearCompilationOutputDir w st1.outFiles with
  | (.error e, rest, evs) => (.error e, { st1 with outFiles := rest }, evs)
  | (.ok _, rest, evs) =>
    let st2 : St := { st1 with outFiles := rest }
    if !st2.isInitialized then (.error .notReady, st2, evs)
    else
      let notifyEv := Ev.notify (inputFiles.map fileUri) (st2.outFiles.map Prod.fst)
      let st3 : St := { st2 with
        diagnostics := applyPushes st2.diagnostics w.pushed,
        outFiles := st2.outFiles ++ w.written }
      let errs := errorDiagnostics st3.diagnostics
      if !st3.diagnostics.isEmpty && !errs.isEmpty then
        (.error (.compilation (String.intercalate "\n" (errs.map diagLine))), st3,
          evs ++ [notifyEv])
      else
        match getCompilationOutput w st3.outFiles with
        | (.error e, evs2) => (.error e, st3, evs ++ [notifyEv] ++ evs2)
        | (.ok outputs, evs2) =>
          match clearCompilationOutputDir w st3.outFiles with
          | (.error e, rest2, evs3) =>
            (.error e, { st3 with outFiles := rest2 }, evs ++ [notifyEv] ++ evs2 ++ evs3)
          | (.ok _, rest2, evs3) =>
            (.ok outputs, { st3 with outFiles := rest2 }, evs ++ [notifyEv] ++ evs2 ++ evs3)

/-- `AlfaLanguageServerClient.compile`: the single-file variant, identical
except that the change notification carries exactly one URI. -/
def clientCompile (w : World) (st : St) (inputFile : String) :
    Except Err (List CompiledFile) × St × List Ev :=
  let st1 : St := { st with diagnostics := [] }
  match clearCompilationOutputDir w st1.outFiles with
  | (.error e, rest, evs) => (.error e, { st1 with outFiles := rest }, evs)
  | (.ok _, rest, evs) =>
    let st2 : St := { st1 with outFiles := rest }
    if !st2.isInitialized then (.error .notReady, st2, evs)
    else
      let notifyEv := Ev.notify [fileUri inputFile] (st2.outFiles.map Prod.fst)
      let st3 : St := { st2 with
        diagnostics := applyPushes st2.diagnostics w.pushed,
        outFiles := st2.outFiles ++ w.written }
      let errs := errorDiagnostics st3.diagnostics
      if !st3.diagnostics.isEmpty && !errs.isEmpty then
        (.error (.compilation (String.intercalate "\n" (errs.map diagLine))), st3,
          evs ++ [notifyEv])
      else
        match getCompilationOutput w st3.outFiles with
        | (.error e, evs2) => (.error e, st3, evs ++ [notifyEv] ++ evs2)
        | (.ok outputs, evs2) =>
          match clearCompilationOutputDir w st3.outFiles with
          | (.error e, rest2, evs3) =>
            (.error e, { st3 with outFiles := rest2 }, evs ++ [notifyEv] ++ evs2 ++ evs3)
          | (.ok _, rest2, evs3) =>
            (.ok outputs, { st3 with outFiles := rest2 }, evs ++ [notifyEv] ++ evs2 ++ evs3)

/-- The per-file validation loop of `AlfaCompiler.compileFiles`: for each
path, `await fs.stat` (rejecting on a nonexistent path), then the
`stats.isFile()` check, then the `existsSync` check. -/
def validateInputs (w : World) : List String → Except Err Unit × List Ev
  | [] => (.ok (), [])
  | p :: rest =>
    match w.fsKind p with
    | none => (.error (.fsStatEnoent p), [.statQ p])
    | some isFile =>
      if !isFile then (.error (.inputNotAFile p), [.statQ p])
      else if (w.fsKind p).isNone then (.error (.inputFileNotFound p), [.statQ p, .existsQ p])
      else
        let r := validateInputs w rest
        (r.1, .statQ p :: .existsQ p :: r.2)

/-- `AlfaCompiler.compileFiles`: reject an empty list, validate every
input path, then delegate to the language-server client. -/
def compilerCompileFiles (w : World) (st : St) (files : List String) :
    Except Err (List CompiledFile) × St × List Ev :=
  if files.isEmpty then (.error .noFilesProvided, st, [])
  else
    match validateInputs w files with
    | (.error e, evs) => (.error e, st, evs)
    | (.ok _, evs) =>
      let r := clientCompileFiles w st files
      (r.1, r.2.1, evs ++ r.2.2)

/-- `AlfaCompiler.compile`: validate the single input path, then delegate
to the language-server client. -/
def compilerCompile (w : World) (st : St) (inputFile : String) :
    Except Err (List CompiledFile) × St × List Ev :=
  match w.fsKind inputFile with
  | none => (.error (.fsStatEnoent inputFile), st, [.statQ inputFile])
  | some isFile =>
    if !isFile then (.error (.inputNotAFile inputFile), st, [.statQ inputFile])
    else if (w.fsKind inputFile).isNone then
      (.error (.inputFileNotFound inputFile), st, [.statQ inputFile, .existsQ inputFile])
    else
      let r := clientCompile w st inputFile
      (r.1, r.2.1, .statQ inputFile :: .existsQ inputFile :: r.2.2)

/-- JS whitespace characters relevant to `String.prototype.trim` and
`parseInt`. -/
def isJsSpace (c : Char) : Bool :=
  c == ' ' || c == '\t' || c == '\n' || c == '\r' || c == '\x0b' || c == '\x0c'

/-- JS `String.prototype.trim`. -/
def jsTrim (s : String) : String :=
  String.mk (((s.data.dropWhile isJsSpace).reverse.dropWhile isJsSpace).reverse)

/-- The exported `compileFiles` facade: reject a missing or empty list,
reject any entry that is empty after trimming, then dispatch to the
single- or multi-file compiler entry point. -/
def facadeCompileFiles (w : World) (st : St) (filenames : Option (List String)) :
    Except Err (List CompiledFile) × St × List Ev :=
  match filenames with
  | none => (.error .provideAtLeastOneFilename, st, [])
  | some fns =>
    if fns.isEmpty then (.error .provideAtLeastOneFilename, st, [])
    else if fns.any (fun f => jsTrim f == "") then (.error .provideAFilename, st, [])
    else
      match fns with
      | [f] =>
        if f == "" then (.error .filenameEmpty, st, [])
        else compilerCompile w st f
      | _ => compilerCompileFiles w st fns

/-- Parse the maximal leading digit run as a number. -/
def parseDigits (cs : List Char) : Option Nat :=
  let ds := cs.takeWhile (fun c => c.isDigit)
  if ds.isEmpty then none
  else some (ds.foldl (fun a c => a * 10 + (c.toNat - Char.toNat '0')) 0)

/-- JS `parseInt(s, 10)`: skip leading whitespace, take an optional sign,
then the maximal digit prefix; `none` models `NaN`. -/
def jsParseInt (s : String) : Option Int :=
  match s.data.dropWhile isJsSpace with
  | '-' :: rest => (parseDigits rest).map (fun n => -(n : Int))
  | '+' :: rest => (parseDigits rest).map (fun n => (n : Int))
  | cs => (parseDigits cs).map (fun n => (n : Int))

/-- The parts of an incoming HTTP request that `handleCompileRequest`
inspects before processing the body.  `body` is carried to make explicit
that the early checks never consult it. -/
structure Req where
  method : String
  contentType : Option String
  contentLength : Option String
  body : String
deriving DecidableEq, Repr

/-- JS `String.prototype.startsWith`, over character lists. -/
def jsStartsWith (s pre : String) : Bool := pre.data.isPrefixOf s.data

/-- The JSON error payload `JSON.stringify(\x7b error: msg \x7d)`. -/
def jsonError (msg : String) : String :=
  "\x7b\"error\":\"" ++ msg ++ "\"\x7d"

/-- The header-validation stage of `handleCompileRequest`, producing an
HTTP status and body.  `proceed` is the outcome of the body-processing
stage (writing the upload to a temporary file and compiling it), which is
only reached when every header check passes. -/
def handleCompileRequest (req : Req) (proceed : Nat × String) : Nat × String :=
  if req.method != "POST" then (405, jsonError "Method Not Allowed. Use POST.")
  else if !jsStartsWith (req.contentType.getD "") "text/plain" then
    (400, jsonError "Content-Type must be text/plain")
  else if jsParseInt (req.contentLength.getD "0") == some 0 then
    (400, jsonError "Empty file content")
  else proceed

/-- The first offending entry of an input list, if any, together with
whether it is nonexistent (`true`) or exists but is not a regular file
(`false`). -/
def firstInvalid (k : String → Option Bool) : List String → Option (String × Bool)
  | [] => none
  | p :: rest =>
    match k p with
    | none => some (p, true)
    | some false => some (p, false)
    | some true => firstInvalid k rest

/-- The shared-state operations of one compile cycle, in the program order
of `AlfaLanguageServerClient.compileFiles`: clear the diagnostics map,
clear the output directory, send the change notification, wait the settle
delay, read the output directory, clear it again. -/
inductive StepK where
  | clearDiag
  | clearOut
  | notify
  | settle
  | readOut
  | clearPost
deriving DecidableEq, Repr

/-- The step sequence of one `compileFiles` cycle. -/
def cycleSteps : List StepK :=
  [.clearDiag, .clearOut, .notify, .settle, .readOut, .clearPost]

/-- Interleave two step sequences under a schedule: each `false` runs the
next step of the first call, each `true` the next step of the second; an
exhausted side yields to the other.  Because the entry points take no lock,
every schedule is a possible execution of two overlapping calls. -/
def sched : List Bool → List StepK → List StepK → List (Bool × StepK)
  | [], a, b => a.map (fun x => (false, x)) ++ b.map (fun x => (true, x))
  | false :: s, a, b =>
    match a with
    | [] => b.map (fun x => (true, x))
    | x :: a2 => (false, x) :: sched s a2 b
  | true :: s, a, b =>
    match b with
    | [] => a.map (fun x => (false, x))
    | y :: b2 => (true, y) :: sched s a b2

/-- The steps one side executes in an interleaved run. -/
def lane (t : Bool) (l : List (Bool × StepK)) : List StepK :=
  (l.filter (fun p => p.1 == t)).map Prod.snd

/-- The serialization property claimed of the entry points: in every
interleaved execution of two `compileFiles` cycles, the second cycle never
clears the output directory between the first cycle's change notification
and its read of the output directory. -/
def serializedCycles : Prop :=
  ∀ (s : List Bool) (i j k : Nat), i < j → j < k →
    (sched s cycleSteps cycleSteps)[i]? = some (false, .notify) →
    (sched s cycleSteps cycleSteps)[j]? = some (true, .clearOut) →
    (sched s cycleSteps cycleSteps)[k]? = some (false, .readOut) → False

/-- The change notifications occurring in a trace, as (uris, directory
snapshot) pairs. -/
def notifyEvents (l : List Ev) : List (List String × List String) :=
  l.filterMap (fun e =>
    match e with
    | .notify uris snap => some (uris, snap)
    | _ => none)

/-- A world in which every filesystem operation succeeds and the server
stays silent, used for concrete runs. -/
def quietWorld : World where
  unlinkErr := fun _ => none
  readFileErr := fun _ => none
  readdirErr := none
  fsKind := fun _ => some true
  pushed := []
  written := []

/-- A client state holding leftover diagnostics and a stale output file
from an earlier cycle, with the connection not initialized. -/
def staleUninitSt : St where
  isInitialized := false
  diagnostics := [("file:///old.alfa",
    [{ severity := some 1, line := 0, character := 0, message := "old error" }])]
  outFiles := [("old.xml", "stale")]

/-- A world in which unlinking either `a.xml` or `b.xml` fails, each with
its own cause. -/
def doubleUnlinkFailWorld : World where
  unlinkErr := fun n =>
    if n == "a.xml" then some "EACCES a.xml"
    else if n == "b.xml" then some "EACCES b.xml"
    else none
  readFileErr := fun _ => none
  readdirErr := none
  fsKind := fun _ => some true
  pushed := []
  written := []

/-- A world whose only activity is pushing one error diagnostic during the
settle delay. -/
def errPushWorld : World where
  unlinkErr := fun _ => none
  readFileErr := fun _ => none
  readdirErr := none
  fsKind := fun _ => some true
  pushed := [("file:///a.alfa",
    [{ severity := some 1, line := 2, character := 4, message := "bad token" }])]
  written := []

/-- A freshly initialized client state. -/
def readySt : St where
  isInitialized := true
  diagnostics := []
  outFiles := []

/-- A world in which `/a.alfa` is a regular file but `/missing.alfa` does
not exist. -/
def oneMissingWorld : World where
  unlinkErr := fun _ => none
  readFileErr := fun _ => none
  readdirErr := none
  fsKind := fun p => if p == "/a.alfa" then some true else none
  pushed := []
  written := []

/-- A world in which reading the entry `bad.xml` fails and everything else
succeeds. -/
def partialReadWorld : World where
  unlinkErr := fun _ => none
  readFileErr := fun n => if n == "bad.xml" then some "EIO" else none
  readdirErr := none
  fsKind := fun _ => some true
  pushed := []
  written := []

theorem clearLoop_ok_nil (u : String → Option String) (files : List (String × String))
    (h : (clearLoop u files).1 = .ok ()) : (clearLoop u files).2.1 = [] := by
  induction files with
  | nil => rfl
  | cons e rest ih =>
    cases hu : u e.1 with
    | some cause => simp [clearLoop, hu] at h
    | none =>
      simp only [clearLoop, hu] at h ⊢
      exact ih h

theorem clearLoop_all_none (u : String → Option String) (files : List (String × String))
    (h : ∀ e ∈ files, u e.1 = none) :
    clearLoop u files = (.ok (), [], files.map (fun e => Ev.unlink e.1)) := by
  induction files with
  | nil => rfl
  | cons e rest ih =>
    have he : u e.1 = none := h e (List.mem_cons_self e rest)
    have ih2 := ih (fun x hx => h x (List.mem_cons_of_mem e hx))
    simp [clearLoop, he, ih2]

theorem clearLoop_notifyEvents (u : String → Option String) (files : List (String × String)) :
    notifyEvents (clearLoop u files).2.2 = [] := by
  induction files with
  | nil => rfl
  | cons e rest ih =>
    cases hu : u e.1 with
    | some cause => simp [clearLoop, hu, notifyEvents]
    | none =>
      simp only [clearLoop, hu, notifyEvents, List.filterMap_cons] at ih ⊢
      exact ih

theorem clearDir_ok_nil (w : World) (files : List (String × String))
    (h : (clearCompilationOutputDir w files).1 = .ok ()) :
    (clearCompilationOutputDir w files).2.1 = [] := by
  cases hr : w.readdirErr with
  | some cause => simp [clearCompilationOutputDir, hr] at h
  | none =>
    simp only [clearCompilationOutputDir, hr] at h ⊢
    cases hc : clearLoop w.unlinkErr files with
    | mk r rest =>
      cases r with
      | ok u =>
        have := clearLoop_ok_nil w.unlinkErr files (by simp [hc])
        simp [hc] at this
        simp [hc, this]
      | error cause => simp [hc] at h

theorem clearDir_all_none (w : World) (files : List (String × String))
    (hr : w.readdirErr = none) (h : ∀ e ∈ files, w.unlinkErr e.1 = none) :
    clearCompilationOutputDir w files =
      (.ok (), [], .readdir :: files.map (fun e => Ev.unlink e.1)) := by
  simp [clearCompilationOutputDir, hr, clearLoop_all_none w.unlinkErr files h]

theorem clearDir_notifyEvents (w : World) (files : List (String × String)) :
    notifyEvents (clearCompilationOutputDir w files).2.2 = [] := by
  cases hr : w.readdirErr with
  | some cause => simp [clearCompilationOutputDir, hr, notifyEvents]
  | none =>
    have := clearLoop_notifyEvents w.unlinkErr files
    cases hc : clearLoop w.unlinkErr files with
    | mk r rest =>
      cases r <;>
        simp only [clearCompilationOutputDir, hr, hc, notifyEvents, List.filterMap_cons] <;>
        simpa [hc, notifyEvents] using this

theorem getOutput_notifyEvents (w : World) (files : List (String × String)) :
    notifyEvents (getCompilationOutput w files).2 = [] := by
  cases hr : w.readdirErr with
  | some cause => simp [getCompilationOutput, hr, notifyEvents]
  | none =>
    simp only [getCompilationOutput, hr, notifyEvents, List.filterMap_cons]
    induction files with
    | nil => rfl
    | cons f rest ih =>
      simp only [List.map_cons, List.filterMap_cons]
      exact ih

theorem notifyEvents_append (l1 l2 : List Ev) :
    notifyEvents (l1 ++ l2) = notifyEvents l1 ++ notifyEvents l2 := by
  simp [notifyEvents, List.filterMap_append]

theorem notifyEvents_nil : notifyEvents [] = [] := rfl

theorem notifyEvents_cons_notify (u s : List String) (l : List Ev) :
    notifyEvents (.notify u s :: l) = (u, s) :: notifyEvents l := by
  simp [notifyEvents, List.filterMap_cons]

theorem notifyEvents_cons_readdir (l : List Ev) :
    notifyEvents (.readdir :: l) = notifyEvents l := by
  simp [notifyEvents, List.filterMap_cons]

theorem notifyEvents_cons_unlink (n : String) (l : List Ev) :
    notifyEvents (.unlink n :: l) = notifyEvents l := by
  simp [notifyEvents, List.filterMap_cons]

theorem notifyEvents_cons_readFile (n : String) (l : List Ev) :
    notifyEvents (.readFile n :: l) = notifyEvents l := by
  simp [notifyEvents, List.filterMap_cons]

theorem notifyEvents_cons_statQ (p : String) (l : List Ev) :
    notifyEvents (.statQ p :: l) = notifyEvents l := by
  simp [notifyEvents, List.filterMap_cons]

theorem notifyEvents_cons_existsQ (p : String) (l : List Ev) :
    notifyEvents (.existsQ p :: l) = notifyEvents l := by
  simp [notifyEvents, List.filterMap_cons]

theorem notifyEvents_map_unlink (fs : List (String × String)) :
    notifyEvents (fs.map (fun e => Ev.unlink e.1)) = [] := by
  induction fs with
  | nil => rfl
  | cons e rest ih => simpa [notifyEvents_cons_unlink] using ih

theorem notifyEvents_map_readFile (fs : List (String × String)) :
    notifyEvents (fs.map (fun f => Ev.readFile f.1)) = [] := by
  induction fs with
  | nil => rfl
  | cons e rest ih => simpa [notifyEvents_cons_readFile] using ih

theorem lane_map_self (t : Bool) (l : List StepK) :
    lane t (l.map (fun x => (t, x))) = l := by
  induction l with
  | nil => rfl
  | cons x xs ih => simp only [lane, List.map_cons, List.filter_cons] at ih ⊢; simp [ih]

theorem lane_map_other (t : Bool) (l : List StepK) :
    lane t (l.map (fun x => (!t, x))) = [] := by
  induction l with
  | nil => rfl
  | cons x xs ih =>
    simp only [lane, List.map_cons, List.filter_cons] at ih ⊢
    simp only [show ((!t) == t) = false by cases t <;> rfl]
    exact ih

theorem lane_append (t : Bool) (l1 l2 : List (Bool × StepK)) :
    lane t (l1 ++ l2) = lane t l1 ++ lane t l2 := by
  simp [lane, List.filter_append]

theorem lane_sched_first (s : List Bool) :
    ∀ a b : List StepK, lane false (sched s a b) = a := by
  induction s with
  | nil =>
    intro a b
    have h1 := lane_map_self false a
    have h2 := lane_map_other false b
    simp only [Bool.not_false] at h2
    simp [sched, lane_append, h1, h2]
  | cons c s ih =>
    intro a b
    cases c with
    | false =>
      cases a with
      | nil =>
        have h := lane_map_other false b
        simp only [Bool.not_false] at h
        simpa [sched] using h
      | cons x a2 =>
        simp only [sched, lane, List.filter_cons]
        simpa [lane] using ih a2 b
    | true =>
      cases b with
      | nil => simpa [sched] using lane_map_self false a
      | cons y b2 =>
        simp only [sched, lane, List.filter_cons]
        simpa [lane] using ih a b2

theorem lane_sched_second (s : List Bool) :
    ∀ a b : List StepK, lane true (sched s a b) = b := by
  induction s with
  | nil =>
    intro a b
    have h1 := lane_map_self true b
    have h2 := lane_map_other true a
    simp only [Bool.not_true] at h2
    simp [sched, lane_append, h1, h2]
  | cons c s ih =>
    intro a b
    cases c with
    | false =>
      cases a with
      | nil => simpa [sched] using lane_map_self true b
      | cons x a2 =>
        simp only [sched, lane, List.filter_cons]
        simpa [lane] using ih a2 b
    | true =>
      cases b with
      | nil =>
        have h := lane_map_other true a
        simp only [Bool.not_true] at h
        simpa [sched] using h
      | cons y b2 =>
        simp only [sched, lane, List.filter_cons]
        simpa [lane] using ih a b2

/-- C1 counterexample: the public compile entry points take no lock or
queue, so the schedule that suspends the first call right after its change
notification and lets the second call run its full cycle is admissible; in
it the second cycle clears the output directory (step index 4) strictly
between the first cycle's change notification (index 2) and its read of
the output directory (index 10).  This refutes the claim that such an
interleaving can never occur. -/
theorem c1_serialization_counterexample : ¬ serializedCycles := by
  intro h
  exact h [false, false, false, true, true, true, true, true, true] 2 4 10
    (by decide) (by decide) (by decide) (by decide) (by decide)

/-- C1 amended: `compile`/`compileFiles` contain no mutual-exclusion
mechanism.  What the code does guarantee is per-call program order: in
every interleaved execution of two cycles each call performs its own steps
in the order of `cycleSteps`.  But all schedules are admissible, and in
particular one in which the second cycle's output-directory clear falls
between the first cycle's change notification and its read of the output
directory; serialization is the caller's obligation. -/
theorem c1_no_lock_program_order_only :
    (∀ s : List Bool,
      lane false (sched s cycleSteps cycleSteps) = cycleSteps ∧
      lane true (sched s cycleSteps cycleSteps) = cycleSteps) ∧
    ∃ (s : List Bool) (i j k : Nat), i < j ∧ j < k ∧
      (sched s cycleSteps cycleSteps)[i]? = some (false, .notify) ∧
      (sched s cycleSteps cycleSteps)[j]? = some (true, .clearOut) ∧
      (sched s cycleSteps cycleSteps)[k]? = some (false, .readOut) := by
  constructor
  · intro s
    exact ⟨lane_sched_first s cycleSteps cycleSteps, lane_sched_second s cycleSteps cycleSteps⟩
  · exact ⟨[false, false, false, true, true, true, true, true, true], 2, 4, 10,
      by decide, by decide, by decide, by decide, by decide⟩



/-- C2 counterexample: invoking `compileFiles` on an uninitialized client
does fail with the not-ready error, but only after mutating shared state:
the diagnostics map and the output directory, both nonempty beforehand,
are empty afterwards — not, as claimed, exactly what they were before the
call. -/
theorem c2_not_ready_counterexample :
    (clientCompileFiles quietWorld staleUninitSt ["/a.alfa"]).1 = .error .notReady ∧
    (clientCompileFiles quietWorld staleUninitSt ["/a.alfa"]).2.1.diagnostics = [] ∧
    (clientCompileFiles quietWorld staleUninitSt ["/a.alfa"]).2.1.outFiles = [] ∧
    staleUninitSt.diagnostics ≠ [] ∧
    staleUninitSt.outFiles ≠ [] := by
  refine ⟨rfl, rfl, rfl, ?_, ?_⟩ <;> decide

/-- C2 amended: if `compile` or `compileFiles` is invoked while the
connection is not initialized (and clearing the output directory itself
succeeds), the call fails with the not-ready error, but the rejection
happens after the cycle-entry cleanup: the diagnostics map and the output
directory are empty after the call, regardless of their prior contents. -/
theorem c2_not_ready_rejects_after_clearing (w : World) (st : St) (files : List String)
    (f : String)
    (hinit : st.isInitialized = false)
    (hdir : w.readdirErr = none)
    (hunlink : ∀ e ∈ st.outFiles, w.unlinkErr e.1 = none) :
    (clientCompileFiles w st files).1 = .error .notReady ∧
    (clientCompileFiles w st files).2.1.diagnostics = [] ∧
    (clientCompileFiles w st files).2.1.outFiles = [] ∧
    (clientCompile w st f).1 = .error .notReady ∧
    (clientCompile w st f).2.1.diagnostics = [] ∧
    (clientCompile w st f).2.1.outFiles = [] := by
  have hclear := clearDir_all_none w st.outFiles hdir hunlink
  simp [clientCompileFiles, clientCompile, hclear, hinit]

/-- Witness for the amended C2 theorem at a concrete uninitialized state. -/
theorem c2_witness :
    staleUninitSt.isInitialized = false ∧
    (clientCompileFiles quietWorld staleUninitSt ["/a.alfa"]).1 = .error .notReady ∧
    (clientCompileFiles quietWorld staleUninitSt ["/a.alfa"]).2.1.outFiles = [] :=
  ⟨rfl,
    (c2_not_ready_rejects_after_clearing quietWorld staleUninitSt ["/a.alfa"] "/a.alfa"
      rfl rfl (fun _ _ => rfl)).1,
    (c2_not_ready_rejects_after_clearing quietWorld staleUninitSt ["/a.alfa"] "/a.alfa"
      rfl rfl (fun _ _ => rfl)).2.2.1⟩


/-- C7 counterexample: with two entries whose deletions both fail,
`clearCompilationOutputDir` fails with a cleanup error carrying only the
first cause (`EACCES a.xml`); the second entry's deletion is never even
attempted (no unlink event for `b.xml`), both entries remain in the
directory, and the second failure (`EACCES b.xml`) is reported nowhere.
The error therefore does not aggregate per-file failures. -/
theorem c7_no_aggregation_counterexample :
    clearCompilationOutputDir doubleUnlinkFailWorld [("a.xml", "x"), ("b.xml", "y")] =
      (.error (.cleanup "EACCES a.xml"), [("a.xml", "x"), ("b.xml", "y")],
        [.readdir, .unlink "a.xml"]) ∧
    doubleUnlinkFailWorld.unlinkErr "b.xml" = some "EACCES b.xml" ∧
    (Err.cleanup "EACCES a.xml").message = "Failed to clean old output files: EACCES a.xml" := by
  exact ⟨rfl, rfl, rfl⟩

theorem clearLoop_first_failure (u : String → Option String)
    (pre post : List (String × String)) (name content cause : String)
    (hpre : ∀ e ∈ pre, u e.1 = none)
    (hfail : u name = some cause) :
    clearLoop u (pre ++ (name, content) :: post) =
      (.error cause, (name, content) :: post,
        pre.map (fun e => Ev.unlink e.1) ++ [.unlink name]) := by
  induction pre with
  | nil => simp [clearLoop, hfail]
  | cons e rest ih =>
    have he : u e.1 = none := hpre e (List.mem_cons_self e rest)
    have ih2 := ih (fun x hx => hpre x (List.mem_cons_of_mem e hx))
    simp [clearLoop, he, ih2]

/-- C7 amended: `clearCompilationOutputDir` deletes entries in directory
order but stops at the first failing deletion: it fails with a cleanup
error wrapping only that first cause, the failing entry and every entry
after it remain in the directory, and later entries are never attempted.
Only when every deletion succeeds is the directory left empty. -/
theorem c7_clear_stops_at_first_failure (w : World)
    (pre post : List (String × String)) (name content cause : String)
    (hdir : w.readdirErr = none)
    (hpre : ∀ e ∈ pre, w.unlinkErr e.1 = none)
    (hfail : w.unlinkErr name = some cause) :
    clearCompilationOutputDir w (pre ++ (name, content) :: post) =
      (.error (.cleanup cause), (name, content) :: post,
        .readdir :: (pre.map (fun e => Ev.unlink e.1) ++ [.unlink name])) ∧
    (∀ files : List (String × String), (∀ e ∈ files, w.unlinkErr e.1 = none) →
      clearCompilationOutputDir w files =
        (.ok (), [], .readdir :: files.map (fun e => Ev.unlink e.1))) := by
  constructor
  · simp [clearCompilationOutputDir, hdir,
      clearLoop_first_failure w.unlinkErr pre post name content cause hpre hfail]
  · intro files hok
    exact clearDir_all_none w files hdir hok

/-- Witness for the amended C7 theorem at a concrete two-entry directory. -/
theorem c7_witness :
    doubleUnlinkFailWorld.unlinkErr "a.xml" = some "EACCES a.xml" ∧
    clearCompilationOutputDir doubleUnlinkFailWorld [("a.xml", "x"), ("b.xml", "y")] =
      (.error (.cleanup "EACCES a.xml"), [("a.xml", "x"), ("b.xml", "y")],
        [.readdir, .unlink "a.xml"]) :=
  ⟨rfl, by
    have h := (c7_clear_stops_at_first_failure doubleUnlinkFailWorld [] [("b.xml", "y")]
      "a.xml" "x" "EACCES a.xml" rfl (fun e he => by simp at he) rfl).1
    simpa using h⟩

theorem clearDir_error_cleanup (w : World) (files : List (String × String))
    (e : Err) (rest : List (String × String)) (evs : List Ev)
    (h : clearCompilationOutputDir w files = (.error e, rest, evs)) :
    ∃ cause, e = .cleanup cause := by
  cases hr : w.readdirErr with
  | some cause =>
    simp only [clearCompilationOutputDir, hr, Prod.mk.injEq, Except.error.injEq] at h
    exact ⟨cause, h.1.symm⟩
  | none =>
    simp only [clearCompilationOutputDir, hr] at h
    rcases hc : clearLoop w.unlinkErr files with ⟨r, rest2, evs2⟩
    cases r with
    | ok u => simp [hc] at h
    | error cause =>
      simp only [hc, Prod.mk.injEq, Except.error.injEq] at h
      exact ⟨cause, h.1.symm⟩

/-- C3: in a ready cycle whose entry cleanup succeeds, let the collected
diagnostics after the settle delay be the pushes applied to the cleared
map.  If any collected diagnostic has error severity (severity 1), both
entry points fail with a compilation error whose body joins one line per
error diagnostic — `Line (line+1), Col (character+1): message` — across
all documents in map order; if no collected diagnostic has error severity
the cycle never fails with a compilation error; and the thrown message is
the `Compilation failed with errors:` header followed by that body. -/
theorem c3_error_diagnostics_aggregated (w : World) (st : St) (files : List String)
    (f : String)
    (hinit : st.isInitialized = true)
    (hdir : w.readdirErr = none)
    (hunlink : ∀ e ∈ st.outFiles, w.unlinkErr e.1 = none) :
    (errorDiagnostics (applyPushes [] w.pushed) ≠ [] →
      (clientCompileFiles w st files).1 =
        .error (.compilation (String.intercalate "\n"
          ((errorDiagnostics (applyPushes [] w.pushed)).map diagLine))) ∧
      (clientCompile w st f).1 =
        .error (.compilation (String.intercalate "\n"
          ((errorDiagnostics (applyPushes [] w.pushed)).map diagLine)))) ∧
    (errorDiagnostics (applyPushes [] w.pushed) = [] →
      ∀ body, (clientCompileFiles w st files).1 ≠ .error (.compilation body) ∧
        (clientCompile w st f).1 ≠ .error (.compilation body)) ∧
    ∀ body, (Err.compilation body).message = "Compilation failed with errors:\n" ++ body := by
  have hclear := clearDir_all_none w st.outFiles hdir hunlink
  refine ⟨?_, ?_, fun body => rfl⟩
  · intro herr
    have hne : applyPushes [] w.pushed ≠ [] := by
      intro h0
      rw [h0] at herr
      exact herr rfl
    constructor <;>
      simp [clientCompileFiles, clientCompile, hclear, hinit, hne, herr]
  · intro herr body
    constructor <;>
    · simp only [clientCompileFiles, clientCompile, hclear, hinit]
      simp only [Bool.not_true, Bool.false_eq_true, if_false, List.nil_append]
      rw [herr]
      simp only [List.isEmpty_nil, Bool.not_true, Bool.and_false, Bool.false_eq_true, if_false]
      simp only [getCompilationOutput, hdir]
      rcases hc : clearCompilationOutputDir w w.written with ⟨r, rest, evs⟩
      cases r with
      | ok u => simp
      | error e =>
        obtain ⟨cause, rfl⟩ := clearDir_error_cleanup w w.written e rest evs hc
        simp



/-- Witness for C3: a pushed severity-1 diagnostic at stored line 2,
character 4 yields a compilation error whose line reads
`Line 3, Col 5: bad token`. -/
theorem c3_witness :
    errorDiagnostics (applyPushes [] errPushWorld.pushed) ≠ [] ∧
    (clientCompileFiles errPushWorld readySt ["/a.alfa"]).1 =
      .error (.compilation "Line 3, Col 5: bad token") := by
  constructor
  · decide
  · have h := (c3_error_diagnostics_aggregated errPushWorld readySt ["/a.alfa"] "/a.alfa"
      rfl rfl (fun e he => by simp [readySt] at he)).1 (by decide)
    simpa using h.1

theorem clientCompile_eq_compileFiles (w : World) (st : St) (f : String) :
    clientCompile w st f = clientCompileFiles w st [f] := rfl

theorem clientCompileFiles_notifyEvents (w : World) (st : St) (files : List String) :
    notifyEvents (clientCompileFiles w st files).2.2 = [] ∨
    notifyEvents (clientCompileFiles w st files).2.2 = [(files.map fileUri, [])] := by
  rcases h : clearCompilationOutputDir w st.outFiles with ⟨r, rest, evs⟩
  have hevs : notifyEvents evs = [] := by
    have h2 := clearDir_notifyEvents w st.outFiles
    rw [h] at h2
    exact h2
  cases r with
  | error e =>
    left
    simp [clientCompileFiles, h, hevs]
  | ok u0 =>
    have hrest : rest = [] := by
      have h2 := clearDir_ok_nil w st.outFiles (by rw [h])
      rw [h] at h2
      exact h2
    subst hrest
    cases hi : st.isInitialized with
    | false =>
      left
      simp [clientCompileFiles, h, hi, hevs]
    | true =>
      cases hg : (!(applyPushes [] w.pushed).isEmpty &&
          !(errorDiagnostics (applyPushes [] w.pushed)).isEmpty) with
      | true =>
        right
        simp [clientCompileFiles, h, hi, hg, notifyEvents_append, hevs,
          notifyEvents_cons_notify, notifyEvents_nil]
      | false =>
        rcases hgo : getCompilationOutput w w.written with ⟨r2, evs2⟩
        have hevs2 : notifyEvents evs2 = [] := by
          have h2 := getOutput_notifyEvents w w.written
          rw [hgo] at h2
          exact h2
        cases r2 with
        | error e2 =>
          right
          simp [clientCompileFiles, h, hi, hg, hgo, notifyEvents_append, hevs, hevs2,
            notifyEvents_cons_notify, notifyEvents_nil]
        | ok outs =>
          rcases hc2 : clearCompilationOutputDir w w.written with ⟨r3, rest3, evs3⟩
          have hevs3 : notifyEvents evs3 = [] := by
            have h2 := clearDir_notifyEvents w w.written
            rw [hc2] at h2
            exact h2
          cases r3 <;>
          · right
            simp [clientCompileFiles, h, hi, hg, hgo, hc2, notifyEvents_append, hevs,
              hevs2, hevs3, notifyEvents_cons_notify, notifyEvents_nil]

theorem clientCompileFiles_ok_empty (w : World) (st : St) (files : List String)
    (out : List CompiledFile)
    (hok : (clientCompileFiles w st files).1 = .ok out) :
    (clientCompileFiles w st files).2.1.outFiles = [] := by
  rcases h : clearCompilationOutputDir w st.outFiles with ⟨r, rest, evs⟩
  cases r with
  | error e => simp [clientCompileFiles, h] at hok
  | ok u0 =>
    have hrest : rest = [] := by
      have h2 := clearDir_ok_nil w st.outFiles (by rw [h])
      rw [h] at h2
      exact h2
    subst hrest
    cases hi : st.isInitialized with
    | false => simp [clientCompileFiles, h, hi] at hok
    | true =>
      cases hg : (!(applyPushes [] w.pushed).isEmpty &&
          !(errorDiagnostics (applyPushes [] w.pushed)).isEmpty) with
      | true => simp [clientCompileFiles, h, hi, hg] at hok
      | false =>
        rcases hgo : getCompilationOutput w w.written with ⟨r2, evs2⟩
        cases r2 with
        | error e2 => simp [clientCompileFiles, h, hi, hg, hgo] at hok
        | ok outs =>
          rcases hc2 : clearCompilationOutputDir w w.written with ⟨r3, rest3, evs3⟩
          cases r3 with
          | error e3 => simp [clientCompileFiles, h, hi, hg, hgo, hc2] at hok
          | ok u3 =>
            have hrest3 : rest3 = [] := by
              have h2 := clearDir_ok_nil w w.written (by rw [hc2])
              rw [hc2] at h2
              exact h2
            simp [clientCompileFiles, h, hi, hg, hgo, hc2, hrest3]

/-- C4: the output directory never accumulates stale artifacts.  In every
run of `compileFiles` or `compile`, whatever the prior state and
environment: any change notification the cycle sends is sent with the
output directory empty (the pre-notification clear has removed every
entry), and any successful cycle ends with the output directory empty
(the post-read clear has removed every generated file). -/
theorem c4_output_dir_never_stale (w : World) (st : St) (files : List String)
    (f : String) :
    (∀ u s, (u, s) ∈ notifyEvents (clientCompileFiles w st files).2.2 → s = []) ∧
    (∀ out, (clientCompileFiles w st files).1 = .ok out →
      (clientCompileFiles w st files).2.1.outFiles = []) ∧
    (∀ u s, (u, s) ∈ notifyEvents (clientCompile w st f).2.2 → s = []) ∧
    (∀ out, (clientCompile w st f).1 = .ok out →
      (clientCompile w st f).2.1.outFiles = []) := by
  refine ⟨?_, fun out hok => clientCompileFiles_ok_empty w st files out hok, ?_, ?_⟩
  · intro u s hmem
    rcases clientCompileFiles_notifyEvents w st files with hn | hn <;> rw [hn] at hmem
    · simp at hmem
    · simp at hmem
      exact hmem.2
  · intro u s hmem
    rw [clientCompile_eq_compileFiles] at hmem
    rcases clientCompileFiles_notifyEvents w st [f] with hn | hn <;> rw [hn] at hmem
    · simp at hmem
    · simp at hmem
      exact hmem.2
  · intro out hok
    rw [clientCompile_eq_compileFiles] at hok ⊢
    exact clientCompileFiles_ok_empty w st [f] out hok

/-- Witness for C4 at a concrete successful cycle: the single notification
is sent with an empty directory snapshot, and after the successful call
the output directory is empty. -/
theorem c4_witness :
    (clientCompileFiles quietWorld readySt ["/a.alfa"]).1 =
      .ok [] ∧
    (clientCompileFiles quietWorld readySt ["/a.alfa"]).2.1.outFiles = [] :=
  ⟨rfl,
    (c4_output_dir_never_stale quietWorld readySt ["/a.alfa"] "/a.alfa").2.1 [] rfl⟩

theorem validateInputs_notifyEvents (w : World) (files : List String) :
    notifyEvents (validateInputs w files).2 = [] := by
  induction files with
  | nil => rfl
  | cons p rest ih =>
    cases hk : w.fsKind p with
    | none => simp [validateInputs, hk, notifyEvents]
    | some isFile =>
      cases isFile with
      | false => simp [validateInputs, hk, notifyEvents]
      | true =>
        simp only [validateInputs, hk, Bool.not_true, Bool.false_eq_true, if_false,
          Option.isNone_some, notifyEvents, List.filterMap_cons] at ih ⊢
        simpa [notifyEvents] using ih

theorem validateInputs_missing (w : World) (files : List String) (p : String)
    (h : firstInvalid w.fsKind files = some (p, true)) :
    (validateInputs w files).1 = .error (.fsStatEnoent p) := by
  induction files with
  | nil => simp [firstInvalid] at h
  | cons q rest ih =>
    cases hk : w.fsKind q with
    | none =>
      simp only [firstInvalid, hk, Option.some.injEq, Prod.mk.injEq] at h
      obtain ⟨rfl, -⟩ := h
      simp [validateInputs, hk]
    | some isFile =>
      cases isFile with
      | false => simp [firstInvalid, hk] at h
      | true =>
        simp only [firstInvalid, hk] at h
        simp [validateInputs, hk, ih h]

theorem validateInputs_notFile (w : World) (files : List String) (p : String)
    (h : firstInvalid w.fsKind files = some (p, false)) :
    (validateInputs w files).1 = .error (.inputNotAFile p) := by
  induction files with
  | nil => simp [firstInvalid] at h
  | cons q rest ih =>
    cases hk : w.fsKind q with
    | none => simp [firstInvalid, hk] at h
    | some isFile =>
      cases isFile with
      | false =>
        simp only [firstInvalid, hk, Option.some.injEq, Prod.mk.injEq] at h
        obtain ⟨rfl, -⟩ := h
        simp [validateInputs, hk]
      | true =>
        simp only [firstInvalid, hk] at h
        simp [validateInputs, hk, ih h]

theorem validateInputs_valid (w : World) (files : List String)
    (h : firstInvalid w.fsKind files = none) :
    (validateInputs w files).1 = .ok () := by
  induction files with
  | nil => rfl
  | cons q rest ih =>
    cases hk : w.fsKind q with
    | none => simp [firstInvalid, hk] at h
    | some isFile =>
      cases isFile with
      | false => simp [firstInvalid, hk] at h
      | true =>
        simp only [firstInvalid, hk] at h
        simp [validateInputs, hk, ih h]

theorem clientCompileFiles_ready_notify (w : World) (st : St) (files : List String)
    (hinit : st.isInitialized = true)
    (hdir : w.readdirErr = none)
    (hunlink : ∀ e ∈ st.outFiles, w.unlinkErr e.1 = none) :
    notifyEvents (clientCompileFiles w st files).2.2 = [(files.map fileUri, [])] := by
  have hclear := clearDir_all_none w st.outFiles hdir hunlink
  have hevs : notifyEvents
      (Ev.readdir :: st.outFiles.map (fun e => Ev.unlink e.1)) = [] := by
    have h2 := clearDir_notifyEvents w st.outFiles
    rw [hclear] at h2
    exact h2
  cases hg : (!(applyPushes [] w.pushed).isEmpty &&
      !(errorDiagnostics (applyPushes [] w.pushed)).isEmpty) with
  | true =>
    simp [clientCompileFiles, hclear, hinit, hg, notifyEvents_append, hevs,
      notifyEvents_cons_notify, notifyEvents_nil, notifyEvents_cons_readdir,
      notifyEvents_cons_unlink, notifyEvents_map_unlink]
  | false =>
    rcases hgo : getCompilationOutput w w.written with ⟨r2, evs2⟩
    have hevs2 : notifyEvents evs2 = [] := by
      have h2 := getOutput_notifyEvents w w.written
      rw [hgo] at h2
      exact h2
    cases r2 with
    | error e2 => simp [getCompilationOutput, hdir] at hgo
    | ok outs =>
      rcases hc2 : clearCompilationOutputDir w w.written with ⟨r3, rest3, evs3⟩
      have hevs3 : notifyEvents evs3 = [] := by
        have h2 := clearDir_notifyEvents w w.written
        rw [hc2] at h2
        exact h2
      cases r3 <;>
        simp [clientCompileFiles, hclear, hinit, hg, hgo, hc2, notifyEvents_append,
          hevs, hevs2, hevs3, notifyEvents_cons_notify, notifyEvents_nil,
          notifyEvents_cons_readdir, notifyEvents_cons_unlink, notifyEvents_map_unlink]

/-- C5: `AlfaCompiler.compileFiles` validates before notifying.  If some
input path is nonexistent or not a regular file, the call fails with the
error naming the first offending path (the raw stat rejection for a
nonexistent path, the `Input path is not a file` error otherwise) and the
trace contains no change notification at all.  If every path is valid (and
the client is ready with a working output directory), the trace contains
exactly one change notification, carrying the URIs of all input paths as
one batch. -/
theorem c5_validation_and_single_batch (w : World) (st : St) (files : List String) :
    (∀ p, firstInvalid w.fsKind files = some (p, true) →
      (compilerCompileFiles w st files).1 = .error (.fsStatEnoent p) ∧
      notifyEvents (compilerCompileFiles w st files).2.2 = []) ∧
    (∀ p, firstInvalid w.fsKind files = some (p, false) →
      (compilerCompileFiles w st files).1 = .error (.inputNotAFile p) ∧
      notifyEvents (compilerCompileFiles w st files).2.2 = []) ∧
    (files ≠ [] → firstInvalid w.fsKind files = none →
      st.isInitialized = true → w.readdirErr = none →
      (∀ e ∈ st.outFiles, w.unlinkErr e.1 = none) →
      notifyEvents (compilerCompileFiles w st files).2.2 = [(files.map fileUri, [])]) := by
  refine ⟨?_, ?_, ?_⟩
  · intro p hfi
    cases files with
    | nil => simp [firstInvalid] at hfi
    | cons q rest =>
      rcases hv : validateInputs w (q :: rest) with ⟨r, evs⟩
      have hr : r = .error (.fsStatEnoent p) := by
        have h2 := validateInputs_missing w (q :: rest) p hfi
        rw [hv] at h2
        exact h2
      subst hr
      have hn : notifyEvents evs = [] := by
        have h2 := validateInputs_notifyEvents w (q :: rest)
        rw [hv] at h2
        exact h2
      simp [compilerCompileFiles, hv, hn]
  · intro p hfi
    cases files with
    | nil => simp [firstInvalid] at hfi
    | cons q rest =>
      rcases hv : validateInputs w (q :: rest) with ⟨r, evs⟩
      have hr : r = .error (.inputNotAFile p) := by
        have h2 := validateInputs_notFile w (q :: rest) p hfi
        rw [hv] at h2
        exact h2
      subst hr
      have hn : notifyEvents evs = [] := by
        have h2 := validateInputs_notifyEvents w (q :: rest)
        rw [hv] at h2
        exact h2
      simp [compilerCompileFiles, hv, hn]
  · intro hne hfi hinit hdir hunlink
    rcases hv : validateInputs w files with ⟨r, evs⟩
    have hr : r = .ok () := by
      have h2 := validateInputs_valid w files hfi
      rw [hv] at h2
      exact h2
    subst hr
    have hn : notifyEvents evs = [] := by
      have h2 := validateInputs_notifyEvents w files
      rw [hv] at h2
      exact h2
    have hclient := clientCompileFiles_ready_notify w st files hinit hdir hunlink
    cases files with
    | nil => exact absurd rfl hne
    | cons q rest =>
      simp [compilerCompileFiles, hv, notifyEvents_append, hn, hclient]


/-- Witness for C5: a nonexistent second path fails the call with the stat
rejection naming it and no notification is sent, while a fully valid list
produces exactly one batched notification. -/
theorem c5_witness :
    firstInvalid oneMissingWorld.fsKind ["/a.alfa", "/missing.alfa"] =
      some ("/missing.alfa", true) ∧
    (compilerCompileFiles oneMissingWorld readySt ["/a.alfa", "/missing.alfa"]).1 =
      .error (.fsStatEnoent "/missing.alfa") ∧
    notifyEvents (compilerCompileFiles oneMissingWorld readySt ["/a.alfa", "/missing.alfa"]).2.2 = [] ∧
    notifyEvents (compilerCompileFiles oneMissingWorld readySt ["/a.alfa"]).2.2 =
      [(["file:///a.alfa"], [])] := by
  refine ⟨by decide, ?_, ?_, ?_⟩
  · exact ((c5_validation_and_single_batch oneMissingWorld readySt
      ["/a.alfa", "/missing.alfa"]).1 "/missing.alfa" (by decide)).1
  · exact ((c5_validation_and_single_batch oneMissingWorld readySt
      ["/a.alfa", "/missing.alfa"]).1 "/missing.alfa" (by decide)).2
  · have h := (c5_validation_and_single_batch oneMissingWorld readySt ["/a.alfa"]).2.2
      (by decide) (by decide) rfl rfl (fun e he => by simp [readySt] at he)
    simpa [fileUri] using h

theorem compilerCompile_eq_compileFiles (w : World) (st : St) (f : String) :
    compilerCompile w st f = compilerCompileFiles w st [f] := by
  cases hk : w.fsKind f with
  | none => simp [compilerCompile, compilerCompileFiles, validateInputs, hk]
  | some isFile =>
    cases isFile with
    | false => simp [compilerCompile, compilerCompileFiles, validateInputs, hk]
    | true =>
      simp [compilerCompile, compilerCompileFiles, validateInputs, hk,
        clientCompile_eq_compileFiles]

theorem getOutput_error_shape (w : World) (files : List (String × String))
    (e : Err) (evs : List Ev)
    (h : getCompilationOutput w files = (.error e, evs)) :
    ∃ cause, e = .readOutputDir cause := by
  cases hr : w.readdirErr with
  | some cause =>
    simp only [getCompilationOutput, hr, Prod.mk.injEq, Except.error.injEq] at h
    exact ⟨cause, h.1.symm⟩
  | none => simp [getCompilationOutput, hr] at h

theorem clientCompileFiles_not_ifnf (w : World) (st : St) (files : List String)
    (p : String) :
    (clientCompileFiles w st files).1 ≠ .error (.inputFileNotFound p) := by
  intro hok
  rcases h : clearCompilationOutputDir w st.outFiles with ⟨r, rest, evs⟩
  cases r with
  | error e =>
    obtain ⟨cause, rfl⟩ := clearDir_error_cleanup w st.outFiles e rest evs h
    simp [clientCompileFiles, h] at hok
  | ok u0 =>
    have hrest : rest = [] := by
      have h2 := clearDir_ok_nil w st.outFiles (by rw [h])
      rw [h] at h2
      exact h2
    subst hrest
    cases hi : st.isInitialized with
    | false => simp [clientCompileFiles, h, hi] at hok
    | true =>
      cases hg : (!(applyPushes [] w.pushed).isEmpty &&
          !(errorDiagnostics (applyPushes [] w.pushed)).isEmpty) with
      | true => simp [clientCompileFiles, h, hi, hg] at hok
      | false =>
        rcases hgo : getCompilationOutput w w.written with ⟨r2, evs2⟩
        cases r2 with
        | error e2 =>
          obtain ⟨cause, rfl⟩ := getOutput_error_shape w w.written e2 evs2 hgo
          simp [clientCompileFiles, h, hi, hg, hgo] at hok
        | ok outs =>
          rcases hc2 : clearCompilationOutputDir w w.written with ⟨r3, rest3, evs3⟩
          cases r3 with
          | error e3 =>
            obtain ⟨cause, rfl⟩ := clearDir_error_cleanup w w.written e3 rest3 evs3 hc2
            simp [clientCompileFiles, h, hi, hg, hgo, hc2] at hok
          | ok u3 => simp [clientCompileFiles, h, hi, hg, hgo, hc2] at hok

theorem validateInputs_not_ifnf (w : World) (files : List String) (p : String) :
    (validateInputs w files).1 ≠ .error (.inputFileNotFound p) := by
  induction files with
  | nil => simp [validateInputs]
  | cons q rest ih =>
    cases hk : w.fsKind q with
    | none => simp [validateInputs, hk]
    | some isFile =>
      cases isFile with
      | false => simp [validateInputs, hk]
      | true => simpa [validateInputs, hk] using ih

/-- C8: the `existsSync` guard in `AlfaCompiler.compile` and
`AlfaCompiler.compileFiles` is dead code.  Neither entry point can ever
fail with the `Input file not found` error, because for a nonexistent path
the preceding `fs.stat` rejects first: the caller observes the raw stat
rejection naming the path instead. -/
theorem c8_exists_branch_unreachable (w : World) (st : St) (files : List String)
    (f p : String) :
    (compilerCompileFiles w st files).1 ≠ .error (.inputFileNotFound p) ∧
    (compilerCompile w st f).1 ≠ .error (.inputFileNotFound p) ∧
    (w.fsKind f = none → (compilerCompile w st f).1 = .error (.fsStatEnoent f)) ∧
    (∀ q, firstInvalid w.fsKind files = some (q, true) →
      (compilerCompileFiles w st files).1 = .error (.fsStatEnoent q)) := by
  have hfiles : ∀ fs : List String,
      (compilerCompileFiles w st fs).1 ≠ .error (.inputFileNotFound p) := by
    intro fs hok
    by_cases he : fs.isEmpty
    · simp [compilerCompileFiles, he] at hok
    · rcases hv : validateInputs w fs with ⟨r, evs⟩
      cases r with
      | error e =>
        have hne := validateInputs_not_ifnf w fs p
        rw [hv] at hne
        simp only [compilerCompileFiles, he, Bool.false_eq_true, if_false, hv] at hok
        simp only [Except.error.injEq] at hok
        subst hok
        simp only at hne
        exact hne rfl
      | ok u =>
        have hnc := clientCompileFiles_not_ifnf w st fs p
        simp only [compilerCompileFiles, he, Bool.false_eq_true, if_false, hv] at hok
        exact hnc hok
  refine ⟨hfiles files, ?_, ?_, ?_⟩
  · rw [compilerCompile_eq_compileFiles]
    exact hfiles [f]
  · intro hk
    simp [compilerCompile, hk]
  · intro q hfi
    cases files with
    | nil => simp [firstInvalid] at hfi
    | cons a rest =>
      rcases hv : validateInputs w (a :: rest) with ⟨r, evs⟩
      have hr : r = .error (.fsStatEnoent q) := by
        have h2 := validateInputs_missing w (a :: rest) q hfi
        rw [hv] at h2
        exact h2
      subst hr
      simp [compilerCompileFiles, hv]

/-- Witness for C8: a nonexistent path makes `compile` fail with the raw
stat rejection, never with the `Input file not found` message. -/
theorem c8_witness :
    oneMissingWorld.fsKind "/missing.alfa" = none ∧
    (compilerCompile oneMissingWorld readySt "/missing.alfa").1 =
      .error (.fsStatEnoent "/missing.alfa") ∧
    (compilerCompile oneMissingWorld readySt "/missing.alfa").1 ≠
      .error (.inputFileNotFound "/missing.alfa") :=
  ⟨rfl,
    (c8_exists_branch_unreachable oneMissingWorld readySt [] "/missing.alfa"
      "/missing.alfa").2.2.1 rfl,
    (c8_exists_branch_unreachable oneMissingWorld readySt [] "/missing.alfa"
      "/missing.alfa").2.1⟩

/-- C6: reading the compilation output.  When listing the directory
succeeds, the result is one record per entry whose read succeeds, in
directory order, with `fileName` the entry name and `content` the
`formatXml` transform of the entry's text; entries whose read fails are
skipped.  When listing the directory fails, the whole call fails with the
read-output-directory error wrapping the cause. -/
theorem c6_read_output_records (w : World) (files : List (String × String)) :
    (w.readdirErr = none →
      (getCompilationOutput w files).1 = .ok (files.filterMap (fun f =>
        if (w.readFileErr f.1).isSome then none
        else some { fileName := f.1, content := formatXml f.2 }))) ∧
    (∀ cause, w.readdirErr = some cause →
      (getCompilationOutput w files).1 = .error (.readOutputDir cause) ∧
      (Err.readOutputDir cause).message =
        "Failed to read output directory: " ++ cause) := by
  constructor
  · intro hr
    simp only [getCompilationOutput, hr, Except.ok.injEq]
    apply List.filterMap_congr
    intro f _
    cases hrf : w.readFileErr f.1 <;> simp [hrf]
  · intro cause hr
    exact ⟨by simp [getCompilationOutput, hr], rfl⟩


/-- Witness for C6: with one readable and one unreadable entry, the result
holds exactly the readable entry, formatted. -/
theorem c6_witness :
    partialReadWorld.readdirErr = none ∧
    (getCompilationOutput partialReadWorld
        [("a.xml", "<a><b>x</b></a>"), ("bad.xml", "z")]).1 =
      .ok [{ fileName := "a.xml", content := "<a>\n<b>x</b>\n</a>" }] := by
  refine ⟨rfl, ?_⟩
  have h := (c6_read_output_records partialReadWorld
    [("a.xml", "<a><b>x</b></a>"), ("bad.xml", "z")]).1 rfl
  rw [h]
  rfl

/-- C9: `handleCompileRequest` decides body emptiness from the
`Content-Length` header alone.  Every POST with a `text/plain` content
type whose `Content-Length` header is absent or parses to zero is rejected
with status 400 and the `Empty file content` JSON error, whatever the
actual body and whatever the later processing stage would have produced. -/
theorem c9_content_length_gate (req : Req) (proceed : Nat × String)
    (hm : req.method = "POST")
    (hct : jsStartsWith (req.contentType.getD "") "text/plain" = true)
    (hcl : req.contentLength = none ∨
      jsParseInt (req.contentLength.getD "0") = some 0) :
    handleCompileRequest req proceed = (400, jsonError "Empty file content") := by
  have h0 : jsParseInt "0" = some 0 := rfl
  rcases hcl with hcl | hcl <;>
    simp [handleCompileRequest, hm, hct, hcl, h0]

/-- Witness for C9: a chunked-style request with no `Content-Length`
header but a nonempty body is still rejected as empty. -/
theorem c9_witness :
    ({ method := "POST", contentType := some "text/plain", contentLength := none,
        body := "namespace axx" } : Req).body ≠ "" ∧
    handleCompileRequest
      { method := "POST", contentType := some "text/plain", contentLength := none,
        body := "namespace axx" } (200, "unused") =
      (400, jsonError "Empty file content") :=
  ⟨by decide,
    c9_content_length_gate
      { method := "POST", contentType := some "text/plain", contentLength := none,
        body := "namespace axx" } (200, "unused") rfl (by decide) (Or.inl rfl)⟩

/-- C10: the exported `compileFiles` facade.  A missing or empty filename
list is rejected with the `Please provide at least one filename` error and
a list containing an entry that is empty after trimming is rejected with
the `Please provide a filename` error, in both cases with an empty event
trace — no filesystem access and no process interaction.  A list passing
both checks is handed to the compiler: the single-file entry point for one
name, the multi-file entry point otherwise. -/
theorem c10_facade_gatekeeping (w : World) (st : St) (fns : List String) :
    facadeCompileFiles w st none = (.error .provideAtLeastOneFilename, st, []) ∧
    (fns = [] →
      facadeCompileFiles w st (some fns) = (.error .provideAtLeastOneFilename, st, [])) ∧
    ((∃ f ∈ fns, jsTrim f = "") →
      facadeCompileFiles w st (some fns) = (.error .provideAFilename, st, [])) ∧
    ((∀ f ∈ fns, jsTrim f ≠ "") →
      (∀ f, fns = [f] → facadeCompileFiles w st (some fns) = compilerCompile w st f) ∧
      (2 ≤ fns.length →
        facadeCompileFiles w st (some fns) = compilerCompileFiles w st fns)) := by
  refine ⟨rfl, ?_, ?_, ?_⟩
  · intro h
    subst h
    rfl
  · rintro ⟨f, hf, htrim⟩
    have hne : fns.isEmpty = false := by
      cases fns with
      | nil => simp at hf
      | cons a t => rfl
    have hany : fns.any (fun f => jsTrim f == "") = true :=
      List.any_eq_true.mpr ⟨f, hf, by simp [htrim]⟩
    simp [facadeCompileFiles, hne, hany]
  · intro hall
    have hany : fns.any (fun f => jsTrim f == "") = false := by
      rw [List.any_eq_false]
      intro f hf
      simpa using hall f hf
    constructor
    · intro f hfn
      subst hfn
      have hfne : (f == "") = false := by
        have := hall f (List.mem_singleton_self f)
        cases hq : f == "" with
        | false => rfl
        | true =>
          rw [beq_iff_eq] at hq
          subst hq
          exact absurd rfl this
      simp [facadeCompileFiles, hany, hfne]
    · intro hlen
      cases fns with
      | nil => simp at hlen
      | cons a t =>
        cases t with
        | nil => simp at hlen
        | cons b t2 => simp [facadeCompileFiles, hany]

/-- Witness for C10: a list containing a whitespace-only filename is
rejected with an empty trace, and a clean two-element list reaches the
multi-file compiler entry point. -/
theorem c10_witness :
    facadeCompileFiles quietWorld readySt (some ["/a.alfa", " \t "]) =
      (.error .provideAFilename, readySt, []) ∧
    facadeCompileFiles quietWorld readySt (some ["/a.alfa", "/b.alfa"]) =
      compilerCompileFiles quietWorld readySt ["/a.alfa", "/b.alfa"] :=
  ⟨(c10_facade_gatekeeping quietWorld readySt ["/a.alfa", " \t "]).2.2.1
      ⟨" \t ", by decide, by decide⟩,
    ((c10_facade_gatekeeping quietWorld readySt ["/a.alfa", "/b.alfa"]).2.2.2
      (by decide)).2 (by decide)⟩

end Alfa
